import Mathlib

/-
Shallow embedding of the rustracer renderer (akav/rustracer), used to check
the natural-language specification of the repository against its code.
The Rust sources are translated declaration by declaration: `usize` becomes
`Nat`, `f32` becomes `ℝ`, code that panics returns `Option`, and `&mut`
parameters become explicit state passing. Section comments cite the Rust
file each definition embeds.
-/

set_option maxHeartbeats 1000000

namespace Rustracer

/-! ## src/block_queue.rs -/

/-- A pixel position, `na::Point2<usize>` as the block queue uses it. -/
structure Point2 where
  x : Nat
  y : Nat
deriving DecidableEq, Repr

/-- Iterator state of one tile, struct `Block` of `src/block_queue.rs`.
The Rust field named `end` is a Lean keyword and is embedded as `stop`. -/
structure Block where
  start : Point2
  current : Point2
  stop : Point2
deriving DecidableEq, Repr

/-- `Block::new(start, size)`: a `size × size` tile whose origin is `start`. -/
def Block.new (start : Nat × Nat) (size : Nat) : Block where
  start := ⟨start.1, start.2⟩
  current := ⟨start.1, start.2⟩
  stop := ⟨start.1 + size, start.2 + size⟩

/-- `Block::area`. -/
def Block.area (b : Block) : Nat :=
  (b.stop.x - b.start.x) * (b.stop.y - b.start.y)

/-- One step of the `Iterator for Block` implementation: the yielded pixel and
the successor state, or `none` when the iterator is exhausted. -/
def Block.next (b : Block) : Option (Point2 × Block) :=
  if b.stop.x ≤ b.current.x ∨ b.stop.y ≤ b.current.y then
    none
  else
    let cur := b.current
    if b.current.x = b.stop.x - 1 then
      some (cur, { b with current := ⟨b.start.x, b.current.y + 1⟩ })
    else
      some (cur, { b with current := ⟨b.current.x + 1, b.current.y⟩ })

/-- The pixels yielded by the first `n` calls of `Block::next`. -/
def Block.iterN (n : Nat) (b : Block) : List Point2 :=
  match n with
  | 0 => []
  | n + 1 =>
    match b.next with
    | none => []
    | some (p, b') => Block.iterN n b' |>.cons p

/-- `BlockQueue::new` stores `num_blocks = (dims.0 / block_size) * (dims.1 / block_size)`. -/
def BlockQueue.numBlocks (dims : Nat × Nat) (blockSize : Nat) : Nat :=
  dims.1 / blockSize * (dims.2 / blockSize)

/-- `BlockQueue::next` for counter value `c`: the atomic counter hands the
values `0, 1, 2, …` to the workers in turn, and this is the block built for
one such value. -/
def BlockQueue.next (dims : Nat × Nat) (blockSize : Nat) (c : Nat) : Option Block :=
  if BlockQueue.numBlocks dims blockSize ≤ c then
    none
  else
    some (Block.new
      (c % (dims.1 / blockSize) * blockSize, c / (dims.1 / blockSize) * blockSize)
      blockSize)

/-- The set of pixels a block covers: its half-open `[start, stop)` box. -/
def Block.contains (b : Block) (p : Point2) : Prop :=
  b.start.x ≤ p.x ∧ p.x < b.stop.x ∧ b.start.y ≤ p.y ∧ p.y < b.stop.y

/-! Helper lemmas about the block iterator. -/

theorem Block.iterN_of_stop (n : Nat) (b : Block)
    (h : b.stop.x ≤ b.current.x ∨ b.stop.y ≤ b.current.y) :
    Block.iterN n b = [] := by
  cases n with
  | zero => rfl
  | succ n => simp [Block.iterN, Block.next, h]

theorem Block.iterN_row (n : Nat) (b : Block)
    (hx : b.current.x < b.stop.x) (hy : b.current.y < b.stop.y)
    (hn : b.stop.x - b.current.x ≤ n) :
    Block.iterN n b =
      ((List.range' b.current.x (b.stop.x - b.current.x)).map fun x => ⟨x, b.current.y⟩)
        ++ Block.iterN (n - (b.stop.x - b.current.x))
            { b with current := ⟨b.start.x, b.current.y + 1⟩ } := by
  induction n generalizing b with
  | zero => omega
  | succ n ih =>
    have hcond : ¬ (b.stop.x ≤ b.current.x ∨ b.stop.y ≤ b.current.y) := by omega
    by_cases hlast : b.current.x = b.stop.x - 1
    · have hk : b.stop.x - b.current.x = 1 := by omega
      rw [hk, List.range'_one]
      simp only [Block.iterN, Block.next, if_neg hcond, if_pos hlast, List.map_cons,
        List.map_nil, List.cons_append, List.nil_append, Nat.add_sub_cancel]
    · have hxx : b.current.x + 1 < b.stop.x := by omega
      have hrec := ih { b with current := ⟨b.current.x + 1, b.current.y⟩ }
        (by simpa using hxx) (by simpa using hy) (by simp; omega)
      simp only [Block.iterN, Block.next, if_neg hcond, if_neg hlast]
      simp only at hrec
      rw [hrec]
      have hk : b.stop.x - b.current.x = (b.stop.x - (b.current.x + 1)) + 1 := by omega
      rw [hk, List.range'_succ, List.map_cons, List.cons_append]
      have hfuel : n - (b.stop.x - (b.current.x + 1))
          = n + 1 - (b.stop.x - (b.current.x + 1) + 1) := by omega
      rw [hfuel]

theorem Block.iterN_rows (k : Nat) (n : Nat) (b : Block)
    (hcx : b.current.x = b.start.x) (hsx : b.start.x < b.stop.x)
    (hk : b.stop.y - b.current.y = k)
    (hn : k * (b.stop.x - b.start.x) ≤ n) :
    Block.iterN n b =
      (List.range' b.current.y k).flatMap
        fun y => (List.range' b.start.x (b.stop.x - b.start.x)).map fun x => ⟨x, y⟩ := by
  induction k generalizing b n with
  | zero =>
    rw [Block.iterN_of_stop n b (Or.inr (by omega))]
    simp
  | succ k ih =>
    have hy : b.current.y < b.stop.y := by omega
    have hw : 0 < b.stop.x - b.start.x := by omega
    have hmul : (k + 1) * (b.stop.x - b.start.x)
        = k * (b.stop.x - b.start.x) + (b.stop.x - b.start.x) := by ring
    have hrow := Block.iterN_row n b (by omega) hy (by omega)
    rw [hcx] at hrow
    rw [hrow]
    have hrec := ih (n - (b.stop.x - b.start.x)) { b with current := ⟨b.start.x, b.current.y + 1⟩ }
      (by simp) hsx (by simp; omega) (by simp only; omega)
    simp only at hrec
    rw [hrec, List.range'_succ, List.flatMap_cons]

/-- Claim C10: iterating `Block::new((x0, y0), s)` yields exactly the pixels of
the `s × s` square based at `(x0, y0)`, in row-major order with `x` varying
fastest, each exactly once; with any fuel of at least `s * s` steps the yield
list is already complete, so every later call returns `None`. -/
theorem Block.iter_is_row_major (x0 y0 s n : Nat) (hn : s * s ≤ n) :
    Block.iterN n (Block.new (x0, y0) s) =
        ((List.range' y0 s).flatMap fun y => (List.range' x0 s).map fun x => ⟨x, y⟩)
      ∧ (Block.iterN n (Block.new (x0, y0) s)).length = s * s
      ∧ (Block.iterN n (Block.new (x0, y0) s)).Nodup
      ∧ ∀ p : Point2, p ∈ Block.iterN n (Block.new (x0, y0) s) ↔
          x0 ≤ p.x ∧ p.x < x0 + s ∧ y0 ≤ p.y ∧ p.y < y0 + s := by
  rcases Nat.eq_zero_or_pos s with hs | hs
  · subst hs
    rw [Block.iterN_of_stop n _ (Or.inl (by simp [Block.new]))]
    simp
  · have hmain := Block.iterN_rows s n (Block.new (x0, y0) s) rfl
      (by simp [Block.new, hs]) (by simp [Block.new]) (by simp [Block.new]; omega)
    have hsz : (Block.new (x0, y0) s).stop.x - (Block.new (x0, y0) s).start.x = s := by
      simp [Block.new]
    rw [hsz] at hmain
    have hb : (Block.new (x0, y0) s).current.y = y0 ∧ (Block.new (x0, y0) s).start.x = x0 := by
      constructor <;> rfl
    rw [hb.1, hb.2] at hmain
    refine ⟨hmain, ?_, ?_, ?_⟩
    · rw [hmain, List.length_flatMap]
      have h1 : (List.length ∘ fun y => (List.range' x0 s).map fun x => (⟨x, y⟩ : Point2))
          = fun _ : Nat => s := by
        funext y
        simp
      rw [h1, List.map_const', List.sum_replicate, smul_eq_mul, List.length_range']
    · rw [hmain]
      apply List.nodup_flatMap.2
      constructor
      · intro y _
        exact (List.nodup_range' ..).map (by intro a b h; simpa using h)
      · apply List.Pairwise.imp ?_ (List.pairwise_lt_range' ..)
        intro a b hab
        simp only [Function.onFun, List.disjoint_left]
        intro p hp hq
        simp only [List.mem_map, List.mem_range'_1] at hp hq
        obtain ⟨xa, _, rfl⟩ := hp
        obtain ⟨xb, _, h⟩ := hq
        cases h
        omega
    · intro p
      rw [hmain]
      simp only [List.mem_flatMap, List.mem_map, List.mem_range'_1]
      constructor
      · rintro ⟨y, hy, x, hx, rfl⟩
        simp only
        omega
      · intro h
        exact ⟨p.y, by omega, p.x, by omega, rfl⟩

/-- Witness for C10 at a concrete input: a `2 × 2` block at `(1, 2)` yields
its four pixels in row-major order. -/
theorem Block.iter_is_row_major_witness :
    Block.iterN 4 (Block.new (1, 2) 2) =
      (List.range' 2 2).flatMap fun y => (List.range' 1 2).map fun x => ⟨x, y⟩ :=
  (Block.iter_is_row_major 1 2 2 4 (by decide)).1

/-- Counterexample to claim C2: for a 17 × 16 film and tile side 16 the queue
does not yield `⌈W/T⌉·⌈H/T⌉ = 2` blocks — `BlockQueue::new` computes
`(W/T)·(H/T) = 1` with integer (floor) division — and the film pixel
`(16, 0)` is contained in no yielded block, because blocks are never clipped
to the film bounds. -/
theorem BlockQueue.ceil_cover_counterexample :
    BlockQueue.numBlocks (17, 16) 16 ≠ (17 + 16 - 1) / 16 * ((16 + 16 - 1) / 16)
      ∧ ¬ ∃ c b, BlockQueue.next (17, 16) 16 c = some b ∧ b.contains ⟨16, 0⟩ := by
  constructor
  · decide
  · rintro ⟨c, b, hc, hcont⟩
    have hnum : BlockQueue.numBlocks (17, 16) 16 = 1 := by decide
    rcases Nat.eq_zero_or_pos c with hc0 | hc1
    · subst hc0
      rw [BlockQueue.next, hnum] at hc
      simp only [if_neg (by omega : ¬ (1 ≤ 0))] at hc
      injection hc with hb
      rw [← hb] at hcont
      simp only [Block.contains] at hcont
      exact absurd hcont.2.1 (by decide)
    · rw [BlockQueue.next, hnum, if_pos (by omega)] at hc
      exact Option.noConfusion hc

/-- Claim C2, amended: with tile side `T > 0` the queue yields exactly
`⌊W/T⌋·⌊H/T⌋` full (unclipped) `T × T` blocks, and every pixel `(x, y)` of
the truncated region `x < ⌊W/T⌋·T`, `y < ⌊H/T⌋·T` is contained in exactly
one yielded block. -/
theorem BlockQueue.floor_cover (W H T : Nat) (hT : 0 < T) :
    (∀ c, (BlockQueue.next (W, H) T c).isSome ↔ c < W / T * (H / T))
      ∧ ∀ x y, x < W / T * T → y < H / T * T →
          ∃! c, ∃ b, BlockQueue.next (W, H) T c = some b ∧ b.contains ⟨x, y⟩ := by
  have hnum : BlockQueue.numBlocks (W, H) T = W / T * (H / T) := rfl
  constructor
  · intro c
    rw [BlockQueue.next, hnum]
    split
    · rename_i h
      simp only [Option.isSome_none, Bool.false_eq_true, false_iff, Nat.not_lt]
      exact h
    · rename_i h
      simp only [Option.isSome_some, true_iff]
      omega
  · intro x y hx hy
    have hcols : 0 < W / T := by
      rcases Nat.eq_zero_or_pos (W / T) with h | h
      · rw [h] at hx
        omega
      · exact h
    have hxq : x / T < W / T := (Nat.div_lt_iff_lt_mul hT).2 hx
    have hyq : y / T < H / T := (Nat.div_lt_iff_lt_mul hT).2 hy
    have hxdm := Nat.div_add_mod x T
    have hxm : x % T < T := Nat.mod_lt x hT
    have hydm := Nat.div_add_mod y T
    have hym : y % T < T := Nat.mod_lt y hT
    have hclt : W / T * (y / T) + x / T < W / T * (H / T) := by
      have h1 : W / T * (y / T + 1) ≤ W / T * (H / T) :=
        Nat.mul_le_mul_left (W / T) (by omega)
      have h2 : W / T * (y / T + 1) = W / T * (y / T) + W / T := by ring
      omega
    refine ⟨W / T * (y / T) + x / T, ⟨?_, ?_⟩⟩
    · have hmod : (W / T * (y / T) + x / T) % (W / T) = x / T := by
        rw [Nat.mul_add_mod]
        exact Nat.mod_eq_of_lt hxq
      have hdiv : (W / T * (y / T) + x / T) / (W / T) = y / T := by
        rw [Nat.mul_add_div hcols, Nat.div_eq_of_lt hxq, Nat.add_zero]
      refine ⟨Block.new ((W / T * (y / T) + x / T) % (W / T) * T,
          (W / T * (y / T) + x / T) / (W / T) * T) T, ?_, ?_⟩
      · rw [BlockQueue.next, hnum, if_neg (by omega)]
      · rw [hmod, hdiv]
        simp only [Block.contains, Block.new]
        have e1 : x / T * T = T * (x / T) := Nat.mul_comm _ _
        have e2 : y / T * T = T * (y / T) := Nat.mul_comm _ _
        omega
    · rintro c ⟨b, hc, hcont⟩
      rw [BlockQueue.next, hnum] at hc
      by_cases hlt : W / T * (H / T) ≤ c
      · rw [if_pos hlt] at hc
        exact Option.noConfusion hc
      · rw [if_neg hlt] at hc
        injection hc with hb
        rw [← hb] at hcont
        simp only [Block.contains, Block.new] at hcont
        obtain ⟨h1, h2, h3, h4⟩ := hcont
        have hcx : c % (W / T) = x / T := by
          have hle : c % (W / T) * T ≤ x := h1
          have hlt2 : x < (c % (W / T) + 1) * T := by
            have hmul : (c % (W / T) + 1) * T = c % (W / T) * T + T := by ring
            omega
          have := Nat.div_eq_of_lt_le hle hlt2
          omega
        have hcy : c / (W / T) = y / T := by
          have hle : c / (W / T) * T ≤ y := h3
          have hlt2 : y < (c / (W / T) + 1) * T := by
            have hmul : (c / (W / T) + 1) * T = c / (W / T) * T + T := by ring
            omega
          have := Nat.div_eq_of_lt_le hle hlt2
          omega
        have hcdm := Nat.div_add_mod c (W / T)
        rw [hcx, hcy] at hcdm
        omega

/-- Witness for the amended C2 at a concrete input: a 33 × 17 film with tile
side 16 yields `2·1` blocks and pixel `(17, 3)` lies in exactly one of them. -/
theorem BlockQueue.floor_cover_witness :
    ((BlockQueue.next (33, 17) 16 1).isSome ↔ 1 < 33 / 16 * (17 / 16))
      ∧ ∃! c, ∃ b, BlockQueue.next (33, 17) 16 c = some b ∧ b.contains ⟨17, 3⟩ :=
  ⟨(BlockQueue.floor_cover 33 17 16 (by decide)).1 1,
   (BlockQueue.floor_cover 33 17 16 (by decide)).2 17 3 (by decide) (by decide)⟩

/-! ## rustracer-core/src/api.rs: the scene-description state machine -/

/-- Enum `ApiState`. -/
inductive ApiState where
  | uninitialized
  | optionsBlock
  | worldBlock
deriving DecidableEq, Repr

/-- `ApiState::verify_initialized`. -/
def ApiState.verify_initialized : ApiState → Except String Unit
  | .uninitialized => .error "Api::init() has not been called!"
  | _ => .ok ()

/-- `ApiState::verify_options`: initialized, and not inside the world block. -/
def ApiState.verify_options (s : ApiState) : Except String Unit := do
  s.verify_initialized
  match s with
  | .worldBlock => throw "Options cannot be set inside world block."
  | _ => pure ()

/-- `ApiState::verify_world`: initialized, and not in the options block. -/
def ApiState.verify_world (s : ApiState) : Except String Unit := do
  s.verify_initialized
  match s with
  | .optionsBlock => throw "Scene description must be inside world block."
  | _ => pure ()

/-- The part of struct `GraphicsState` the world directives mutate that claim
C4 observes; `reverse_orientation` is the field `ReverseOrientation` toggles. -/
structure GraphicsState where
  material : String
  reverse_orientation : Bool
deriving DecidableEq, Repr

/-- The part of struct `State` behind `RealApi` that claim C4 observes. -/
structure State where
  api_state : ApiState
  graphics_state : GraphicsState
deriving DecidableEq, Repr

/-- `RealApi::reverse_orientation`: the `?` operator returns the error before
any mutation, so on a failed state check the state is returned unchanged. -/
def RealApi.reverse_orientation (s : State) : Except String Unit × State :=
  match s.api_state.verify_world with
  | .error e => (.error e, s)
  | .ok _ =>
    (.ok (), { s with graphics_state :=
      { s.graphics_state with reverse_orientation := ! s.graphics_state.reverse_orientation } })

/-- Claim C4: a world-only directive (`ReverseOrientation`) invoked while the
API state is `Uninitialized` or `OptionsBlock` returns an error and leaves the
state — in particular the graphics state — unchanged; an options directive
invoked in `WorldBlock` fails its `verify_options` check; and each check
succeeds in its own block. -/
theorem ApiState.block_discipline :
    (∀ s : State, s.api_state = .uninitialized ∨ s.api_state = .optionsBlock →
        (∃ e, (RealApi.reverse_orientation s).1 = .error e)
          ∧ (RealApi.reverse_orientation s).2 = s)
      ∧ (∃ e, ApiState.verify_options .worldBlock = .error e)
      ∧ ApiState.verify_world .worldBlock = .ok ()
      ∧ ApiState.verify_options .optionsBlock = .ok () := by
  refine ⟨?_, ⟨_, rfl⟩, rfl, rfl⟩
  intro s hs
  rcases hs with h | h <;>
    · rw [RealApi.reverse_orientation, h]
      exact ⟨⟨_, rfl⟩, rfl⟩

/-- Witness for C4 at a concrete input: `ReverseOrientation` in the options
block errors and leaves the state unchanged. -/
theorem ApiState.block_discipline_witness :
    ((∃ e, (RealApi.reverse_orientation ⟨.optionsBlock, ⟨"matte", false⟩⟩).1 = .error e)
        ∧ (RealApi.reverse_orientation ⟨.optionsBlock, ⟨"matte", false⟩⟩).2
            = ⟨.optionsBlock, ⟨"matte", false⟩⟩)
      ∧ ∃ e, ApiState.verify_options .worldBlock = .error e :=
  ⟨ApiState.block_discipline.1 ⟨.optionsBlock, ⟨"matte", false⟩⟩ (Or.inr rfl),
   ApiState.block_discipline.2.1⟩

/-- The filter kinds `RenderOptions::make_filter` can build. -/
inductive FilterKind where
  | box
  | mitchell
  | gaussian
  | triangle
deriving DecidableEq, Repr

/-- The material kinds `make_material` can build. -/
inductive MaterialKind where
  | matte
  | plastic
  | glass
  | mirror
  | metal
  | substrate
  | translucent
  | uber
  | disney
deriving DecidableEq, Repr

/-- `RenderOptions::make_filter`: the four recognized names build a filter,
anything else is a hard error (`bail!`). -/
def RenderOptions.make_filter (filter_name : String) : Except String FilterKind :=
  if filter_name = "box" then .ok .box
  else if filter_name = "mitchell" then .ok .mitchell
  else if filter_name = "gaussian" then .ok .gaussian
  else if filter_name = "triangle" then .ok .triangle
  else .error ("Filter \"" ++ filter_name ++ "\" unknown.")

/-- `make_material` of api.rs: unknown names warn and fall back to matte. -/
def make_material (name : String) : MaterialKind :=
  if name = "matte" then .matte
  else if name = "plastic" then .plastic
  else if name = "glass" then .glass
  else if name = "mirror" then .mirror
  else if name = "metal" then .metal
  else if name = "substrate" then .substrate
  else if name = "translucent" then .translucent
  else if name = "uber" then .uber
  else if name = "disney" then .disney
  else .matte

/-- The camera construction step of `RenderOptions::make_camera` once filter
and film are made: only "perspective" is recognized, anything else is a hard
error (`bail!`). -/
def RenderOptions.make_camera_name (camera_name : String) : Except String Unit :=
  if camera_name = "perspective" then .ok () else
    .error ("Camera \"" ++ camera_name ++ "\" unknown.")

/-- Counterexample to claim C5: `make_filter` does not substitute the box
filter for the unrecognized name "sinc" — it returns a hard error. -/
theorem make_filter_box_default_counterexample :
    RenderOptions.make_filter "sinc" = .error "Filter \"sinc\" unknown."
      ∧ RenderOptions.make_filter "sinc" ≠ .ok FilterKind.box := by
  refine ⟨rfl, ?_⟩
  intro h
  rw [show RenderOptions.make_filter "sinc" = .error "Filter \"sinc\" unknown." from rfl] at h
  exact Except.noConfusion h

/-- Claim C5, amended: an unrecognized filter name is a hard error, exactly
like an unrecognized camera name; the substitute-a-default-and-warn recovery
applies to materials (unknown names fall back to matte), not to filters. -/
theorem make_filter_unknown_is_hard_error (name : String)
    (hb : name ≠ "box") (hm : name ≠ "mitchell") (hg : name ≠ "gaussian")
    (ht : name ≠ "triangle") :
    RenderOptions.make_filter name = .error ("Filter \"" ++ name ++ "\" unknown.")
      ∧ (name ≠ "perspective" →
          RenderOptions.make_camera_name name
            = .error ("Camera \"" ++ name ++ "\" unknown."))
      ∧ (name ∉ ["matte", "plastic", "glass", "mirror", "metal", "substrate",
            "translucent", "uber", "disney"] →
          make_material name = .matte) := by
  refine ⟨?_, ?_, ?_⟩
  · rw [RenderOptions.make_filter, if_neg hb, if_neg hm, if_neg hg, if_neg ht]
  · intro hp
    rw [RenderOptions.make_camera_name, if_neg hp]
  · intro hmem
    simp only [List.mem_cons, List.mem_singleton, not_or] at hmem
    obtain ⟨h1, h2, h3, h4, h5, h6, h7, h8, h9, -⟩ := hmem
    rw [make_material, if_neg h1, if_neg h2, if_neg h3, if_neg h4, if_neg h5,
      if_neg h6, if_neg h7, if_neg h8, if_neg h9]

/-- Witness for the amended C5 at the concrete name "sinc". -/
theorem make_filter_unknown_is_hard_error_witness :
    RenderOptions.make_filter "sinc" = .error ("Filter \"" ++ "sinc" ++ "\" unknown.")
      ∧ make_material "sinc" = .matte := by
  have h := make_filter_unknown_is_hard_error "sinc"
    (by decide) (by decide) (by decide) (by decide)
  exact ⟨h.1, h.2.2 (by decide)⟩

/-! ## Geometry carrier types shared by the BSDF and primitive sections -/

/-- A 3-vector of `f32` components, embedded over `ℝ`. -/
structure Vector3 where
  x : ℝ
  y : ℝ
  z : ℝ

/-- Vector dot product. -/
def Vector3.dot (a b : Vector3) : ℝ :=
  a.x * b.x + a.y * b.y + a.z * b.z

/-- Vector negation. -/
def Vector3.neg (a : Vector3) : Vector3 :=
  ⟨-a.x, -a.y, -a.z⟩

/-- Scalar multiplication of a vector. -/
def Vector3.smul (k : ℝ) (a : Vector3) : Vector3 :=
  ⟨k * a.x, k * a.y, k * a.z⟩

/-- Vector addition. -/
def Vector3.add (a b : Vector3) : Vector3 :=
  ⟨a.x + b.x, a.y + b.y, a.z + b.z⟩

/-! ## Primitives: src/primitive.rs and rustracer-core/src/primitive.rs -/

/-- Struct `Ray`, restricted to the fields the primitive claims observe:
origin, direction and the mutable `t_max`. -/
structure Ray where
  o : Vector3
  d : Vector3
  t_max : ℝ

/-- The `Shape` trait as the primitives consume it: `intersect` reports a hit
with its parameter `t_hit` without touching the ray, `intersect_p` is the
predicate variant. `Isect` is the surface-interaction payload. -/
structure Shape (Isect : Type) where
  intersectFn : Ray → Option (Isect × ℝ)
  intersect_pFn : Ray → Bool

/-- Struct `GeometricPrimitive` (shape reference only; material and area light
do not take part in intersection). -/
structure GeometricPrimitive (Isect : Type) where
  shape : Shape Isect

/-- `GeometricPrimitive::intersect`: on a shape hit, set `ray.t_max = t_hit`
and return the interaction; the `&mut Ray` becomes explicit state passing. -/
def GeometricPrimitive.intersect {Isect : Type} (p : GeometricPrimitive Isect)
    (ray : Ray) : Option Isect × Ray :=
  match p.shape.intersectFn ray with
  | none => (none, ray)
  | some (isect, t_hit) => (some isect, { ray with t_max := t_hit })

/-- `GeometricPrimitive::intersect_p` delegates to the shape. -/
def GeometricPrimitive.intersect_p {Isect : Type} (p : GeometricPrimitive Isect)
    (ray : Ray) : Bool :=
  p.shape.intersect_pFn ray

/-- Modelled from the spec: the geometry module that applies a `Transform` to
a `Ray` is not among the provided sources. Per the spec the transform maps
origin and direction and the mutable `t_max` rides along unchanged; the
interaction transform `SurfaceInteraction::transform` is carried as an
abstract map on the payload. -/
structure Transform (Isect : Type) where
  mapO : Vector3 → Vector3
  mapD : Vector3 → Vector3
  mapIsect : Isect → Isect

/-- Modelled from the spec: a transformed copy of a ray, `t_max` preserved. -/
def Transform.applyRay {Isect : Type} (tr : Transform Isect) (r : Ray) : Ray :=
  { o := tr.mapO r.o, d := tr.mapD r.d, t_max := r.t_max }

/-- The inner `Primitive` trait object of a `TransformedPrimitive`: its
`intersect` may mutate the ray it is handed, so it is embedded as state
passing; `intersect_p` takes the ray by shared reference. -/
structure PrimitiveImpl (Isect : Type) where
  intersectFn : Ray → Option Isect × Ray
  intersect_pFn : Ray → Bool

/-- Struct `TransformedPrimitive`: an inner primitive plus `primitive_to_world`,
whose cached inverse is carried alongside. -/
structure TransformedPrimitive (Isect : Type) where
  primitive : PrimitiveImpl Isect
  primitive_to_world : Transform Isect
  primitive_to_world_inv : Transform Isect

/-- `TransformedPrimitive::intersect`: intersect the inner primitive with the
inverse-transformed ray `r`; on a hit copy `r.t_max` back into the original
ray and transform the interaction to world space. -/
def TransformedPrimitive.intersect {Isect : Type} (tp : TransformedPrimitive Isect)
    (ray : Ray) : Option Isect × Ray :=
  let r := tp.primitive_to_world_inv.applyRay ray
  match tp.primitive.intersectFn r with
  | (none, _) => (none, ray)
  | (some isect, r') => (some (tp.primitive_to_world.mapIsect isect),
      { ray with t_max := r'.t_max })

/-- `TransformedPrimitive::intersect_p` on the inverse-transformed ray. -/
def TransformedPrimitive.intersect_p {Isect : Type} (tp : TransformedPrimitive Isect)
    (ray : Ray) : Bool :=
  tp.primitive.intersect_pFn (tp.primitive_to_world_inv.applyRay ray)

/-- Claim C8: primitive intersection never increases `ray.t_max`. For a
`GeometricPrimitive` whose shape reports hits only within `(0, t_max]`, a hit
sets the new `t_max` to the hit parameter `t_hit ≤` the old `t_max`, and a
miss leaves the ray unchanged; for a `TransformedPrimitive` whose inner
primitive never increases `t_max` and leaves a missed ray unchanged, the same
holds with the new `t_max` bounded by the old. -/
theorem Primitive.intersect_tmax_monotone {Isect : Type}
    (gp : GeometricPrimitive Isect) (tp : TransformedPrimitive Isect) (ray : Ray)
    (hshape : ∀ r i t, gp.shape.intersectFn r = some (i, t) → 0 < t ∧ t ≤ r.t_max)
    (hinner : ∀ r, ((tp.primitive.intersectFn r).2).t_max ≤ r.t_max
        ∧ ((tp.primitive.intersectFn r).1 = none → (tp.primitive.intersectFn r).2 = r))
    (htmax : 0 < ray.t_max) :
    ((gp.intersect ray).2.t_max ≤ ray.t_max
        ∧ (∀ i t, gp.shape.intersectFn ray = some (i, t) →
            (gp.intersect ray).2.t_max = t)
        ∧ ((gp.intersect ray).1 = none → (gp.intersect ray).2 = ray))
      ∧ ((tp.intersect ray).2.t_max ≤ ray.t_max
        ∧ ((tp.intersect ray).1 = none → (tp.intersect ray).2 = ray)) := by
  constructor
  · refine ⟨?_, ?_, ?_⟩
    · rw [GeometricPrimitive.intersect]
      cases hres : gp.shape.intersectFn ray with
      | none => exact le_rfl
      | some v =>
        obtain ⟨i, t⟩ := v
        exact (hshape ray i t hres).2
    · intro i t hres
      rw [GeometricPrimitive.intersect, hres]
    · rw [GeometricPrimitive.intersect]
      cases hres : gp.shape.intersectFn ray with
      | none => intro _; rfl
      | some v =>
        obtain ⟨i, t⟩ := v
        intro h
        exact absurd h (by simp)
  · rw [TransformedPrimitive.intersect]
    cases hres : tp.primitive.intersectFn (tp.primitive_to_world_inv.applyRay ray) with
    | mk oi r' =>
      cases oi with
      | none => exact ⟨le_rfl, fun _ => rfl⟩
      | some isect =>
        constructor
        · have h1 := (hinner (tp.primitive_to_world_inv.applyRay ray)).1
          rw [hres] at h1
          simpa [Transform.applyRay] using h1
        · intro h
          exact absurd h (by simp)

/-- Witness for C8 at a concrete input: a shape and an inner primitive that
always miss, and a unit ray. -/
theorem Primitive.intersect_tmax_monotone_witness :
    (((⟨⟨fun _ => none, fun _ => false⟩⟩ : GeometricPrimitive Unit).intersect
        ⟨⟨0, 0, 0⟩, ⟨0, 0, 1⟩, 1⟩).2.t_max ≤ (1 : ℝ))
      ∧ (((⟨⟨fun r => (none, r), fun _ => false⟩, ⟨id, id, id⟩, ⟨id, id, id⟩⟩ :
            TransformedPrimitive Unit).intersect
          ⟨⟨0, 0, 0⟩, ⟨0, 0, 1⟩, 1⟩).2.t_max ≤ (1 : ℝ)) := by
  have h := Primitive.intersect_tmax_monotone
    (⟨⟨fun _ => none, fun _ => false⟩⟩ : GeometricPrimitive Unit)
    (⟨⟨fun r => (none, r), fun _ => false⟩, ⟨id, id, id⟩, ⟨id, id, id⟩⟩ :
      TransformedPrimitive Unit)
    ⟨⟨0, 0, 0⟩, ⟨0, 0, 1⟩, 1⟩
    (fun r i t hr => Option.noConfusion hr)
    (fun r => ⟨le_rfl, fun _ => rfl⟩)
    (by norm_num)
  exact ⟨h.1.1, h.2.1⟩

/-- Claim C9: for both primitive kinds, `intersect` returns `Some` exactly
when `intersect_p` returns `true`, given that the wrapped shape (for the
geometric primitive) respectively the inner primitive (for the transformed
one) already agree on hit existence. -/
theorem Primitive.intersect_p_agrees {Isect : Type}
    (gp : GeometricPrimitive Isect) (tp : TransformedPrimitive Isect) (ray : Ray)
    (hshape : ∀ r, (gp.shape.intersectFn r).isSome = gp.shape.intersect_pFn r)
    (hinner : ∀ r, (tp.primitive.intersectFn r).1.isSome = tp.primitive.intersect_pFn r) :
    ((gp.intersect ray).1.isSome = gp.intersect_p ray)
      ∧ ((tp.intersect ray).1.isSome = tp.intersect_p ray) := by
  constructor
  · rw [GeometricPrimitive.intersect, GeometricPrimitive.intersect_p, ← hshape ray]
    cases hres : gp.shape.intersectFn ray with
    | none => rfl
    | some v =>
      obtain ⟨i, t⟩ := v
      rfl
  · rw [TransformedPrimitive.intersect, TransformedPrimitive.intersect_p,
      ← hinner (tp.primitive_to_world_inv.applyRay ray)]
    cases hres : tp.primitive.intersectFn (tp.primitive_to_world_inv.applyRay ray) with
    | mk oi r' =>
      cases oi with
      | none => rfl
      | some isect => rfl

/-- Witness for C9 at a concrete input: an always-missing shape and inner
primitive agree with the predicate variant on a unit ray. -/
theorem Primitive.intersect_p_agrees_witness :
    (((⟨⟨fun _ => none, fun _ => false⟩⟩ : GeometricPrimitive Unit).intersect
        ⟨⟨0, 0, 0⟩, ⟨0, 0, 1⟩, 1⟩).1.isSome
      = (⟨⟨fun _ => none, fun _ => false⟩⟩ : GeometricPrimitive Unit).intersect_p
          ⟨⟨0, 0, 0⟩, ⟨0, 0, 1⟩, 1⟩)
      ∧ ((((⟨⟨fun r => (none, r), fun _ => false⟩, ⟨id, id, id⟩, ⟨id, id, id⟩⟩ :
            TransformedPrimitive Unit)).intersect
          ⟨⟨0, 0, 0⟩, ⟨0, 0, 1⟩, 1⟩).1.isSome
        = ((⟨⟨fun r => (none, r), fun _ => false⟩, ⟨id, id, id⟩, ⟨id, id, id⟩⟩ :
            TransformedPrimitive Unit)).intersect_p
            ⟨⟨0, 0, 0⟩, ⟨0, 0, 1⟩, 1⟩) :=
  Primitive.intersect_p_agrees
    (⟨⟨fun _ => none, fun _ => false⟩⟩ : GeometricPrimitive Unit)
    (⟨⟨fun r => (none, r), fun _ => false⟩, ⟨id, id, id⟩, ⟨id, id, id⟩⟩ :
      TransformedPrimitive Unit)
    ⟨⟨0, 0, 0⟩, ⟨0, 0, 1⟩, 1⟩
    (fun _ => rfl) (fun _ => rfl)

/-! ## src/bsdf/fresnel.rs: Fresnel dielectric -/

/-- Numeric clamp (`na::clamp`), as `fr_dielectric` uses it. -/
noncomputable def naClamp (x lo hi : ℝ) : ℝ :=
  if x < lo then lo else if hi < x then hi else x

/-- The body of `fr_dielectric` after the exit-side swap of the indices of
refraction: at this point `cos_theta_i` is nonnegative. -/
noncomputable def frDielectricPos (cos_theta_i eta_i eta_t : ℝ) : ℝ :=
  let sin_theta_i := Real.sqrt (max (1 - cos_theta_i * cos_theta_i) 0)
  let sin_theta_t := eta_i / eta_t * sin_theta_i
  if 1 ≤ sin_theta_t then 1
  else
    let cos_theta_t := Real.sqrt (max (1 - sin_theta_t * sin_theta_t) 0)
    let r_parl := (eta_t * cos_theta_i - eta_i * cos_theta_t)
      / (eta_t * cos_theta_i + eta_i * cos_theta_t)
    let r_perp := (eta_i * cos_theta_i - eta_t * cos_theta_t)
      / (eta_i * cos_theta_i + eta_t * cos_theta_t)
    0.5 * (r_parl * r_parl + r_perp * r_perp)

/-- `fr_dielectric`: clamp the incidence cosine, swap the indices of
refraction and take the absolute value when exiting (`cos_theta_i <= 0`). -/
noncomputable def fr_dielectric (cos_theta_i eta_i eta_t : ℝ) : ℝ :=
  let c := naClamp cos_theta_i (-1) 1
  if c ≤ 0 then frDielectricPos |c| eta_t eta_i
  else frDielectricPos c eta_i eta_t

/-- The closed form of the no-total-internal-reflection branch; `ct` stands
for the transmitted cosine. -/
noncomputable def frFormula (ci eta_i eta_t ct : ℝ) : ℝ :=
  0.5 * ((eta_t * ci - eta_i * ct) / (eta_t * ci + eta_i * ct)
          * ((eta_t * ci - eta_i * ct) / (eta_t * ci + eta_i * ct))
        + (eta_i * ci - eta_t * ct) / (eta_i * ci + eta_t * ct)
          * ((eta_i * ci - eta_t * ct) / (eta_i * ci + eta_t * ct)))

theorem frDielectricPos_no_tir (ci ei et : ℝ) (hc : 0 ≤ ci) (hc1 : ci * ci ≤ 1)
    (hst0 : 0 ≤ ei / et) (hst : ei / et * Real.sqrt (1 - ci * ci) < 1) :
    frDielectricPos ci ei et
      = frFormula ci ei et
          (Real.sqrt (1 - (ei / et * Real.sqrt (1 - ci * ci))
            * (ei / et * Real.sqrt (1 - ci * ci)))) := by
  have hmax1 : max (1 - ci * ci) 0 = 1 - ci * ci := max_eq_left (by linarith)
  have hstnn : 0 ≤ ei / et * Real.sqrt (1 - ci * ci) :=
    mul_nonneg hst0 (Real.sqrt_nonneg _)
  have hst2 : (ei / et * Real.sqrt (1 - ci * ci))
      * (ei / et * Real.sqrt (1 - ci * ci)) ≤ 1 := by nlinarith
  have hmax2 : max (1 - (ei / et * Real.sqrt (1 - ci * ci))
      * (ei / et * Real.sqrt (1 - ci * ci))) 0
        = 1 - (ei / et * Real.sqrt (1 - ci * ci))
            * (ei / et * Real.sqrt (1 - ci * ci)) := max_eq_left (by linarith)
  rw [frDielectricPos]
  simp only [hmax1, hmax2]
  rw [if_neg (not_le.2 hst)]
  rfl

/-- Claim C6: for an incidence cosine in `(0, 1]` and positive indices of
refraction with no total internal reflection, `fr_dielectric` is symmetric
under exchanging the two media via the Snell transmitted cosine
`cos_theta_t = sqrt(1 - sin_theta_t^2)`; moreover at `sin_theta_t >= 1` the
function returns exactly 1, and for `cos_theta_i <= 0` it swaps the indices
of refraction and continues with the absolute value of the clamped cosine. -/
theorem fr_dielectric_symmetry (ci ei et : ℝ)
    (h0 : 0 < ci) (h1 : ci ≤ 1) (hei : 0 < ei) (het : 0 < et)
    (hTIR : ei / et * Real.sqrt (1 - ci * ci) < 1) :
    fr_dielectric ci ei et
        = fr_dielectric
            (Real.sqrt (1 - (ei / et * Real.sqrt (1 - ci * ci)) ^ 2)) et ei
      ∧ (∀ ci' ei' et' : ℝ, 0 < ci' → ci' ≤ 1 →
          1 ≤ ei' / et' * Real.sqrt (1 - ci' * ci') →
          fr_dielectric ci' ei' et' = 1)
      ∧ (∀ ci' ei' et' : ℝ, ci' ≤ 0 →
          fr_dielectric ci' ei' et' = frDielectricPos |naClamp ci' (-1) 1| et' ei') := by
  have hclamp : ∀ c : ℝ, 0 < c → c ≤ 1 → naClamp c (-1) 1 = c := by
    intro c hcp hcl
    rw [naClamp, if_neg (by linarith), if_neg (not_lt.2 hcl)]
  refine ⟨?_, ?_, ?_⟩
  · -- abbreviations
    set si := Real.sqrt (1 - ci * ci) with hsi
    set st := ei / et * si with hst
    set ct := Real.sqrt (1 - st * st) with hct
    have hci2 : ci * ci ≤ 1 := by nlinarith
    have hsi0 : 0 ≤ si := Real.sqrt_nonneg _
    have hsisq : si * si = 1 - ci * ci := Real.mul_self_sqrt (by linarith)
    have hsi1 : si < 1 := by nlinarith
    have hst0 : 0 ≤ st := mul_nonneg (by positivity) hsi0
    have hstsq1 : st * st < 1 := by nlinarith
    have hct0 : 0 < ct := Real.sqrt_pos.2 (by linarith)
    have hctsq : ct * ct = 1 - st * st := Real.mul_self_sqrt (by linarith)
    have hct1 : ct ≤ 1 := by nlinarith [Real.sqrt_nonneg (1 - st * st)]
    have hsq : (ei / et * Real.sqrt (1 - ci * ci)) ^ 2 = st * st := by
      rw [← hsi, ← hst]
      ring
    rw [hsq, ← hct]
    -- left side
    have hL : fr_dielectric ci ei et = frFormula ci ei et ct := by
      rw [fr_dielectric]
      simp only [hclamp ci h0 h1, if_neg (not_le.2 h0)]
      rw [frDielectricPos_no_tir ci ei et (le_of_lt h0) hci2 (by positivity) hTIR]
    -- right side
    have hsqrt_ct : Real.sqrt (1 - ct * ct) = st := by
      rw [hctsq]
      simp only [sub_sub_cancel]
      exact Real.sqrt_mul_self hst0
    have hback : et / ei * st = si := by
      rw [hst]
      field_simp
      ring
    have hR : fr_dielectric ct et ei = frFormula ct et ei ci := by
      rw [fr_dielectric]
      simp only [hclamp ct hct0 hct1, if_neg (not_le.2 hct0)]
      rw [frDielectricPos_no_tir ct et ei (le_of_lt hct0) (by nlinarith) (by positivity)
        (by rw [hsqrt_ct, hback]; exact hsi1)]
      rw [hsqrt_ct, hback]
      have hclip : Real.sqrt (1 - si * si) = ci := by
        rw [hsisq]
        simp only [sub_sub_cancel]
        exact Real.sqrt_mul_self (le_of_lt h0)
      rw [hclip]
    rw [hL, hR]
    -- the two closed forms agree
    have e1 : ∀ a b : ℝ, (a - b) / (a + b) * ((a - b) / (a + b))
        = (b - a) / (b + a) * ((b - a) / (b + a)) := by
      intro a b
      rw [add_comm b a, show b - a = -(a - b) by ring, neg_div, neg_mul_neg]
    rw [frFormula, frFormula, e1 (et * ci) (ei * ct), e1 (ei * ci) (et * ct)]
  · intro ci' ei' et' h0' h1' htir
    have hci2' : ci' * ci' ≤ 1 := by nlinarith
    rw [fr_dielectric]
    simp only [hclamp ci' h0' h1', if_neg (not_le.2 h0')]
    rw [frDielectricPos]
    simp only [max_eq_left (by linarith : (0:ℝ) ≤ 1 - ci' * ci')]
    rw [if_pos htir]
  · intro ci' ei' et' hneg
    have hle : naClamp ci' (-1) 1 ≤ 0 := by
      rw [naClamp]
      split_ifs <;> linarith
    rw [fr_dielectric]
    simp only [if_pos hle]

/-- Witness for C6 at the concrete input `cos_theta_i = 1`, `eta_i = 1`,
`eta_t = 2` (normal incidence entering glass-like medium). -/
theorem fr_dielectric_symmetry_witness :
    fr_dielectric 1 1 2
      = fr_dielectric (Real.sqrt (1 - ((1:ℝ) / 2 * Real.sqrt (1 - 1 * 1)) ^ 2)) 2 1 :=
  (fr_dielectric_symmetry 1 1 2 (by norm_num) (by norm_num) (by norm_num) (by norm_num)
    (by norm_num [Real.sqrt_zero])).1

/-- `refract(i, n, eta)` of src/bsdf/fresnel.rs: the refraction direction, or
`None` on total internal reflection. -/
noncomputable def refract (i n : Vector3) (eta : ℝ) : Option Vector3 :=
  let cos_theta_i := n.dot i
  let sin2theta_i := max (1 - cos_theta_i * cos_theta_i) 0
  let sin2theta_t := eta * eta * sin2theta_i
  if 1 ≤ sin2theta_t then none
  else
    let cos_theta_t := Real.sqrt (1 - sin2theta_t)
    some ((Vector3.smul eta i.neg).add (Vector3.smul (eta * cos_theta_i - cos_theta_t) n))

/-! ## src/bsdf/mod.rs: BxDF type flags and BSDF::sample_f -/

/-- The `BxDFType` bitflags as five bits. -/
structure BxDFType where
  reflection : Bool
  transmission : Bool
  diffuse : Bool
  glossy : Bool
  specular : Bool
deriving DecidableEq, Repr

def BSDF_REFLECTION : BxDFType := ⟨true, false, false, false, false⟩

def BSDF_TRANSMISSION : BxDFType := ⟨false, true, false, false, false⟩

def BSDF_DIFFUSE : BxDFType := ⟨false, false, true, false, false⟩

def BSDF_GLOSSY : BxDFType := ⟨false, false, false, true, false⟩

def BSDF_SPECULAR : BxDFType := ⟨false, false, false, false, true⟩

/-- bitflags `contains`: every bit of `other` is set in `self`. -/
def BxDFType.contains (self other : BxDFType) : Bool :=
  (!other.reflection || self.reflection) && (!other.transmission || self.transmission)
    && (!other.diffuse || self.diffuse) && (!other.glossy || self.glossy)
    && (!other.specular || self.specular)

/-- bitflags union. -/
def BxDFType.union (a c : BxDFType) : BxDFType :=
  ⟨a.reflection || c.reflection, a.transmission || c.transmission,
   a.diffuse || c.diffuse, a.glossy || c.glossy, a.specular || c.specular⟩

/-- bitflags `empty`. -/
def BxDFType.emptyFlags : BxDFType := ⟨false, false, false, false, false⟩

/-- `BxDF::matches` (bxdf.rs is not among the provided sources; conventional
semantics: a lobe matches when the requested flags contain all its bits). -/
def BxDFType.matches (t flags : BxDFType) : Bool :=
  flags.contains t

/-- RGB colour `Colourf` of the src crate. -/
structure Colourf where
  r : ℝ
  g : ℝ
  b : ℝ

def Colourf.black : Colourf := ⟨0, 0, 0⟩

def Colourf.rgb (r g b : ℝ) : Colourf := ⟨r, g, b⟩

/-- `Colourf * f32`. -/
def Colourf.scale (c : Colourf) (k : ℝ) : Colourf := ⟨c.r * k, c.g * k, c.b * k⟩

/-- `Colourf / f32`. -/
noncomputable def Colourf.divide (c : Colourf) (k : ℝ) : Colourf := ⟨c.r / k, c.g / k, c.b / k⟩

/-- Struct `BSDF` of src/bsdf/mod.rs: index of refraction, shading frame and
the lobe list; only each lobe's type flags take part in the claims, so a lobe
is embedded as its `BxDFType`. -/
structure BSDF where
  eta : ℝ
  ns : Vector3
  ng : Vector3
  ss : Vector3
  ts : Vector3
  bxdfs : List BxDFType

/-- `BSDF::world_to_local`. -/
def BSDF.world_to_local (bsdf : BSDF) (v : Vector3) : Vector3 :=
  ⟨v.dot bsdf.ss, v.dot bsdf.ts, v.dot bsdf.ns⟩

/-- `BSDF::local_to_world`. The third component of the source reads
`ss.z * v.z` where the frame algebra would use `ss.z * v.x`; the
transliteration keeps the source as written. -/
def BSDF.local_to_world (bsdf : BSDF) (v : Vector3) : Vector3 :=
  ⟨bsdf.ss.x * v.x + bsdf.ts.x * v.y + bsdf.ns.x * v.z,
   bsdf.ss.y * v.x + bsdf.ts.y * v.y + bsdf.ns.y * v.z,
   bsdf.ss.z * v.z + bsdf.ts.z * v.y + bsdf.ns.z * v.z⟩

/-- `BSDF::sample_f` of src/bsdf/mod.rs. The Rust body opens with
`if !flags.contains(BSDF_SPECULAR) { unimplemented!(); }` — a panic — which
the embedding renders as `none`; every non-panicking path returns `some` of
`(colour, wi_world, pdf)`. The lobe list is never consulted. -/
noncomputable def BSDF.sample_f (bsdf : BSDF) (wo_w : Vector3) (sample : ℝ × ℝ)
    (flags : BxDFType) : Option (Colourf × Vector3 × ℝ) :=
  if ¬ flags.contains BSDF_SPECULAR then none
  else if flags.contains BSDF_REFLECTION then
    let wo := bsdf.world_to_local wo_w
    let wi : Vector3 := ⟨-wo.x, -wo.y, wo.z⟩
    let cos_theta_i := wi.z
    let kr := fr_dielectric cos_theta_i 1 bsdf.eta
    let colour := (Colourf.rgb 1 1 1).scale kr |>.divide |cos_theta_i|
    some (colour, bsdf.local_to_world wi, 1)
  else if flags.contains BSDF_TRANSMISSION then
    let wo := bsdf.world_to_local wo_w
    let entering := 0 < wo.z
    let eta_i : ℝ := if entering then 1 else bsdf.eta
    let eta_t : ℝ := if entering then bsdf.eta else 1
    let n : Vector3 := if wo.z < 0 then (Vector3.mk 0 0 1).neg else ⟨0, 0, 1⟩
    match refract wo n (eta_i / eta_t) with
    | some wi =>
      let cos_theta_i := wi.z
      let kr := fr_dielectric cos_theta_i 1 bsdf.eta
      let colour := (Colourf.rgb 1 1 1).scale (1 - kr) |>.divide |cos_theta_i|
      some (colour, bsdf.local_to_world wi, 1)
    | none => some (Colourf.black, ⟨0, 0, 0⟩, 0)
  else some (Colourf.black, ⟨0, 0, 0⟩, 0)

/-- Counterexample to claim C1: a BSDF with no lobes at all (so no lobe
matches any flags) and the request `flags = BSDF_DIFFUSE` — the Specular bit
absent — makes `sample_f` panic (`unimplemented!`, embedded `none`) instead
of returning a black spectrum with pdf 0. -/
theorem BSDF.sample_f_total_counterexample :
    (∀ t ∈ (BSDF.mk 1.5 ⟨0, 0, 1⟩ ⟨0, 0, 1⟩ ⟨1, 0, 0⟩ ⟨0, 1, 0⟩ []).bxdfs,
        t.matches BSDF_DIFFUSE = false)
      ∧ BSDF.sample_f (BSDF.mk 1.5 ⟨0, 0, 1⟩ ⟨0, 0, 1⟩ ⟨1, 0, 0⟩ ⟨0, 1, 0⟩ [])
          ⟨0, 0, 1⟩ (1/2, 1/2) BSDF_DIFFUSE = none := by
  constructor
  · intro t ht
    exact absurd ht (List.not_mem_nil t)
  · rw [BSDF.sample_f, if_pos (by decide)]

/-- Claim C1, amended: `BSDF::sample_f` never consults its lobe list. It
returns the black spectrum with pdf 0 exactly on flag grounds: when the flags
contain the Specular bit but neither Reflection nor Transmission. When the
flags do not contain the Specular bit it panics (`unimplemented!`) for every
BSDF and outgoing direction — it is not total. -/
theorem BSDF.sample_f_flag_behaviour (bsdf : BSDF) (wo_w : Vector3) (sample : ℝ × ℝ)
    (flags : BxDFType) :
    (flags.specular = false → BSDF.sample_f bsdf wo_w sample flags = none)
      ∧ (flags.specular = true → flags.reflection = false → flags.transmission = false →
          BSDF.sample_f bsdf wo_w sample flags = some (Colourf.black, ⟨0, 0, 0⟩, 0)) := by
  have hs : flags.contains BSDF_SPECULAR = flags.specular := by
    simp [BxDFType.contains, BSDF_SPECULAR]
  have hr : flags.contains BSDF_REFLECTION = flags.reflection := by
    simp [BxDFType.contains, BSDF_REFLECTION]
  have ht : flags.contains BSDF_TRANSMISSION = flags.transmission := by
    simp [BxDFType.contains, BSDF_TRANSMISSION]
  constructor
  · intro h
    rw [BSDF.sample_f, if_pos]
    rw [hs, h]
    exact Bool.false_ne_true
  · intro h hrf htr
    rw [BSDF.sample_f, if_neg (by rw [hs, h]; simp), if_neg (by rw [hr, hrf]; simp),
      if_neg (by rw [ht, htr]; simp)]

/-- Witness for the amended C1 at concrete inputs: `BSDF_DIFFUSE` flags make
`sample_f` panic, `BSDF_SPECULAR` alone returns black with pdf 0. -/
theorem BSDF.sample_f_flag_behaviour_witness :
    BSDF.sample_f (BSDF.mk 1.5 ⟨0, 0, 1⟩ ⟨0, 0, 1⟩ ⟨1, 0, 0⟩ ⟨0, 1, 0⟩
        [BSDF_DIFFUSE.union BSDF_REFLECTION]) ⟨0, 0, 1⟩ (1/2, 1/2) BSDF_GLOSSY = none
      ∧ BSDF.sample_f (BSDF.mk 1.5 ⟨0, 0, 1⟩ ⟨0, 0, 1⟩ ⟨1, 0, 0⟩ ⟨0, 1, 0⟩
          [BSDF_DIFFUSE.union BSDF_REFLECTION]) ⟨0, 0, 1⟩ (1/2, 1/2) BSDF_SPECULAR
            = some (Colourf.black, ⟨0, 0, 0⟩, 0) :=
  ⟨(BSDF.sample_f_flag_behaviour _ _ _ _).1 rfl,
   (BSDF.sample_f_flag_behaviour _ _ _ _).2 rfl rfl rfl⟩

/-! ## src/bsdf/fresnel.rs: SpecularTransmission -/

/-- RGB `Spectrum`. -/
structure Spectrum where
  r : ℝ
  g : ℝ
  b : ℝ

def Spectrum.black : Spectrum := ⟨0, 0, 0⟩

def Spectrum.white : Spectrum := ⟨1, 1, 1⟩

def Spectrum.grey (v : ℝ) : Spectrum := ⟨v, v, v⟩

/-- Componentwise product. -/
def Spectrum.mul (a c : Spectrum) : Spectrum := ⟨a.r * c.r, a.g * c.g, a.b * c.b⟩

/-- Componentwise difference. -/
def Spectrum.sub (a c : Spectrum) : Spectrum := ⟨a.r - c.r, a.g - c.g, a.b - c.b⟩

/-- `Spectrum * f32`. -/
def Spectrum.scale (c : Spectrum) (k : ℝ) : Spectrum := ⟨c.r * k, c.g * k, c.b * k⟩

/-- `Spectrum / f32`. -/
noncomputable def Spectrum.divide (c : Spectrum) (k : ℝ) : Spectrum :=
  ⟨c.r / k, c.g / k, c.b / k⟩

/-- Modelled from the spec: `face_forward` of the geometry module is not
among the provided sources; conventional semantics, flip `v` so it lies in
the hemisphere the second argument points into. -/
noncomputable def face_forward (v n2 : Vector3) : Vector3 :=
  if v.dot n2 < 0 then v.neg else v

/-- `FresnelDielectric::evaluate` with the constructor-stored indices
`eta_i, eta_t`: the Fresnel reflectance at the absolute cosine, as a grey
spectrum. -/
noncomputable def FresnelDielectric.evaluate (eta_i eta_t cos_theta_i : ℝ) : Spectrum :=
  Spectrum.grey (fr_dielectric |cos_theta_i| eta_i eta_t)

/-- Struct `SpecularTransmission`: transmission scale `t` and the two indices
of refraction; its `fresnel` field is the `FresnelDielectric (eta_a, eta_b)`. -/
structure SpecularTransmission where
  t : Spectrum
  eta_a : ℝ
  eta_b : ℝ

/-- `SpecularTransmission::sample_f`. There is no transport-mode parameter:
the `(eta_i^2 / eta_t^2)` factor (the non-symmetry account for radiance
transport) is applied on every call. The sample argument is unused by the
source and omitted. -/
noncomputable def SpecularTransmission.sample_f (sp : SpecularTransmission)
    (wo : Vector3) : Spectrum × Vector3 × ℝ × BxDFType :=
  let entering := 0 < wo.z
  let eta_i : ℝ := if entering then sp.eta_a else sp.eta_b
  let eta_t : ℝ := if entering then sp.eta_b else sp.eta_a
  match refract wo (face_forward ⟨0, 0, 1⟩ wo) (eta_i / eta_t) with
  | some wi =>
    let ft := sp.t.mul (Spectrum.white.sub (FresnelDielectric.evaluate sp.eta_a sp.eta_b wi.z))
    let ft2 := ft.scale (eta_i * eta_i) |>.divide (eta_t * eta_t)
    (ft2.divide |wi.z|, wi, 1, BSDF_SPECULAR.union BSDF_TRANSMISSION)
  | none => (Spectrum.white, ⟨0, 0, 0⟩, 0, BxDFType.emptyFlags)

theorem fr_dielectric_one_one_two : fr_dielectric 1 1 2 = 1 / 9 := by
  rw [fr_dielectric]
  rw [show naClamp 1 (-1) 1 = 1 from by rw [naClamp]; norm_num]
  rw [if_neg (by norm_num)]
  rw [frDielectricPos]
  rw [show max (1 - (1:ℝ) * 1) 0 = 0 from by norm_num]
  rw [Real.sqrt_zero]
  rw [if_neg (by norm_num)]
  rw [show max (1 - (1:ℝ) / 2 * 0 * ((1:ℝ) / 2 * 0)) 0 = 1 from by norm_num]
  rw [Real.sqrt_one]
  norm_num

theorem refract_normal_half : refract ⟨0, 0, 1⟩ ⟨0, 0, 1⟩ ((1:ℝ) / 2)
    = some ⟨0, 0, -1⟩ := by
  rw [refract]
  simp only [Vector3.dot, Vector3.neg, Vector3.smul, Vector3.add]
  rw [show max (1 - ((0:ℝ) * 0 + 0 * 0 + 1 * 1) * (0 * 0 + 0 * 0 + 1 * 1)) 0 = 0 from by
    norm_num]
  rw [if_neg (by norm_num)]
  rw [show (1:ℝ) - 1 / 2 * (1 / 2) * 0 = 1 from by norm_num, Real.sqrt_one]
  norm_num

/-- Counterexample to claim C3: at normal incidence into `eta_b = 2` with
`t = white`, `SpecularTransmission::sample_f` returns the spectrum
`(2/9, 2/9, 2/9)` — the `(eta_i/eta_t)^2 = 1/4` factor is applied — and not
the factor-free value `(8/9, 8/9, 8/9)`. The function has no transport-mode
parameter at all: the factor is applied on every call, so no `Importance`
mode omitting it exists in the code. -/
theorem SpecularTransmission.radiance_factor_counterexample :
    (SpecularTransmission.sample_f ⟨Spectrum.white, 1, 2⟩ ⟨0, 0, 1⟩).1
        = Spectrum.grey (2 / 9)
      ∧ Spectrum.grey ((2:ℝ) / 9) ≠ Spectrum.grey (8 / 9) := by
  constructor
  · rw [SpecularTransmission.sample_f]
    simp only
    simp only [if_pos (by norm_num : (0:ℝ) < (1:ℝ))]
    rw [show face_forward ⟨0, 0, 1⟩ (⟨0, 0, 1⟩ : Vector3) = ⟨0, 0, 1⟩ from by
      rw [face_forward]
      rw [if_neg (by rw [Vector3.dot]; norm_num)]]
    rw [refract_normal_half]
    simp only [FresnelDielectric.evaluate]
    rw [show |(Vector3.mk 0 0 (-1)).z| = (1:ℝ) from by norm_num]
    rw [fr_dielectric_one_one_two]
    simp only [Spectrum.white, Spectrum.grey, Spectrum.mul, Spectrum.sub,
      Spectrum.scale, Spectrum.divide]
    norm_num
  · intro h
    have := congrArg Spectrum.r h
    simp only [Spectrum.grey] at this
    norm_num at this

/-- Claim C3, amended: `SpecularTransmission::sample_f` takes no transport
mode — the `(eta_i/eta_t)^2` factor is applied on every call. For every
outgoing direction `wo` off the surface plane that is not totally internally
reflected, with `eta_i, eta_t` the entering-dependent indices and
`cos_theta_t = sqrt(1 - (eta_i/eta_t)^2 sin^2 theta_o)`, the sample is
`(t * (1 - fr_dielectric(cos_theta_t)) * eta_i^2 / eta_t^2 / cos_theta_t,
wi, pdf 1, SPECULAR|TRANSMISSION)`. -/
theorem SpecularTransmission.sample_f_always_scales
    (t : Spectrum) (ea eb : ℝ) (wo : Vector3) (eta_i eta_t ct : ℝ)
    (hi : eta_i = if 0 < wo.z then ea else eb)
    (hte : eta_t = if 0 < wo.z then eb else ea)
    (hz : wo.z ≠ 0)
    (hct : ct = Real.sqrt (1 - eta_i / eta_t * (eta_i / eta_t)
        * max (1 - |wo.z| * |wo.z|) 0))
    (hnoTIR : eta_i / eta_t * (eta_i / eta_t) * max (1 - |wo.z| * |wo.z|) 0 < 1) :
    SpecularTransmission.sample_f ⟨t, ea, eb⟩ wo
      = ((t.mul (Spectrum.white.sub (Spectrum.grey (fr_dielectric ct ea eb)))).scale
            (eta_i * eta_i) |>.divide (eta_t * eta_t) |>.divide ct,
         ⟨-(eta_i / eta_t) * wo.x, -(eta_i / eta_t) * wo.y,
            if 0 < wo.z then -ct else ct⟩,
         1, BSDF_SPECULAR.union BSDF_TRANSMISSION) := by
  rw [abs_mul_abs_self] at hct hnoTIR
  have hctnn : 0 ≤ ct := hct ▸ Real.sqrt_nonneg _
  by_cases ho : 0 < wo.z
  · rw [if_pos ho] at hi hte
    subst hi
    subst hte
    have hff : face_forward ⟨0, 0, 1⟩ wo = ⟨0, 0, 1⟩ := by
      rw [face_forward]
      rw [if_neg (by rw [Vector3.dot]; simp only [zero_mul, one_mul, zero_add]; linarith)]
    have hdot : (Vector3.mk 0 0 1).dot wo = wo.z := by
      rw [Vector3.dot]
      ring
    have hrefract : refract wo ⟨0, 0, 1⟩ (eta_i / eta_t)
        = some ⟨-(eta_i / eta_t) * wo.x, -(eta_i / eta_t) * wo.y, -ct⟩ := by
      rw [refract]
      simp only [hdot]
      rw [if_neg (not_le.2 hnoTIR), ← hct]
      simp only [Vector3.neg, Vector3.smul, Vector3.add, Option.some.injEq,
        Vector3.mk.injEq]
      refine ⟨by ring, by ring, by ring⟩
    rw [SpecularTransmission.sample_f]
    simp only [if_pos ho, hff, hrefract]
    rw [FresnelDielectric.evaluate]
    rw [show |(Vector3.mk (-(eta_i / eta_t) * wo.x) (-(eta_i / eta_t) * wo.y) (-ct)).z| = ct
      from by rw [show (Vector3.mk (-(eta_i / eta_t) * wo.x) (-(eta_i / eta_t) * wo.y)
          (-ct)).z = -ct from rfl, abs_neg, abs_of_nonneg hctnn]]
  · have hneg : wo.z < 0 := lt_of_le_of_ne (not_lt.1 ho) hz
    rw [if_neg ho] at hi hte
    subst hi
    subst hte
    have hff : face_forward ⟨0, 0, 1⟩ wo = (Vector3.mk 0 0 1).neg := by
      rw [face_forward]
      rw [if_pos (by rw [Vector3.dot]; simp only [zero_mul, one_mul, zero_add]; linarith)]
    have hdot : ((Vector3.mk 0 0 1).neg).dot wo = -wo.z := by
      rw [Vector3.neg, Vector3.dot]
      ring
    have hsq : max (1 - -wo.z * -wo.z) 0 = max (1 - wo.z * wo.z) 0 := by
      ring_nf
    have hrefract : refract wo ((Vector3.mk 0 0 1).neg) (eta_i / eta_t)
        = some ⟨-(eta_i / eta_t) * wo.x, -(eta_i / eta_t) * wo.y, ct⟩ := by
      rw [refract]
      simp only [hdot, hsq]
      rw [if_neg (not_le.2 hnoTIR), ← hct]
      simp only [Vector3.neg, Vector3.smul, Vector3.add, Option.some.injEq,
        Vector3.mk.injEq]
      refine ⟨by ring, by ring, by ring⟩
    rw [SpecularTransmission.sample_f]
    simp only [if_neg ho, hff, hrefract]
    rw [FresnelDielectric.evaluate]
    rw [show |(Vector3.mk (-(eta_i / eta_t) * wo.x) (-(eta_i / eta_t) * wo.y) ct).z| = ct
      from by rw [show (Vector3.mk (-(eta_i / eta_t) * wo.x) (-(eta_i / eta_t) * wo.y)
          ct).z = ct from rfl, abs_of_nonneg hctnn]]

/-- Witness for the amended C3 at normal incidence into `eta_b = 2`:
`cos_theta_t = 1` and the factor `1/4` is applied. -/
theorem SpecularTransmission.sample_f_always_scales_witness :
    SpecularTransmission.sample_f ⟨Spectrum.white, 1, 2⟩ ⟨0, 0, 1⟩
      = ((Spectrum.white.mul (Spectrum.white.sub
            (Spectrum.grey (fr_dielectric 1 1 2)))).scale
            ((1:ℝ) * 1) |>.divide ((2:ℝ) * 2) |>.divide (1:ℝ),
         ⟨-((1:ℝ) / 2) * (Vector3.mk 0 0 1).x, -((1:ℝ) / 2) * (Vector3.mk 0 0 1).y,
            if (0:ℝ) < (Vector3.mk 0 0 1).z then -(1:ℝ) else 1⟩,
         1, BSDF_SPECULAR.union BSDF_TRANSMISSION) :=
  SpecularTransmission.sample_f_always_scales Spectrum.white 1 2 ⟨0, 0, 1⟩ 1 2 1
    (by norm_num) (by norm_num) (by norm_num)
    (by norm_num [Real.sqrt_one]) (by norm_num)

/-! ## src/mipmap.rs -/

/-- `WrapMode`. -/
inductive WrapMode where
  | repeat
  | black
  | clamp
deriving DecidableEq, Repr

/-- fn `modulo` of src/mipmap.rs: Rust `%` on `isize` (truncated remainder)
adjusted to a nonnegative index. -/
def moduloIdx (a b : Int) : Nat :=
  let result := Int.tmod a b
  if result < 0 then (result + b).toNat else result.toNat

/-- `na::clamp` on `isize` indices, for the Clamp wrap mode. -/
def clampIdx (s lo hi : Int) : Int :=
  if s < lo then lo else if hi < s then hi else s

/-- `MIPMap<T>` as `MIPMap::new` builds it from a power-of-two image
(`2^kx × 2^ky` texels), for which `is_power_of_2` holds on both axes and the
Lanczos resample path is skipped. The base image is the texel function `img`;
the scalar case `T = ℝ` is embedded (each Spectrum channel behaves alike). -/
structure MIPMap where
  wrap_mode : WrapMode
  kx : Nat
  ky : Nat
  img : Nat → Nat → ℝ

/-- `u_size`/`v_size` of pyramid level `i`: the source computes level `i` at
`max(1, previous_size / 2)` starting from the base resolution. -/
def levelSize (w : Nat) : Nat → Nat
  | 0 => w
  | i + 1 => max 1 (levelSize w i / 2)

/-- `MIPMap::texel` on one level array of size `us × vs`: the wrap mode is
applied to the possibly negative indices; Black returns the zero sentinel
outside the array. -/
def wrapFetch (mode : WrapMode) (us vs : Nat) (arr : Nat → Nat → ℝ) (s t : Int) : ℝ :=
  match mode with
  | .repeat => arr (moduloIdx s us) (moduloIdx t vs)
  | .clamp => arr (clampIdx s 0 ((us : Int) - 1)).toNat (clampIdx t 0 ((vs : Int) - 1)).toNat
  | .black =>
    if s < 0 ∨ (us : Int) ≤ s ∨ t < 0 ∨ (vs : Int) ≤ t then 0
    else arr s.toNat t.toNat

/-- The pyramid of `MIPMap::new`: level 0 is the base image; level `i+1`
box-filters four texels of level `i` fetched through `texel` (wrap applied)
and scales by `0.25`. -/
def MIPMap.levelArr (m : MIPMap) : Nat → (Nat → Nat → ℝ)
  | 0 => m.img
  | i + 1 => fun s t =>
      (wrapFetch m.wrap_mode (levelSize (2 ^ m.kx) i) (levelSize (2 ^ m.ky) i)
          (m.levelArr i) (2 * (s : Int)) (2 * (t : Int))
        + wrapFetch m.wrap_mode (levelSize (2 ^ m.kx) i) (levelSize (2 ^ m.ky) i)
            (m.levelArr i) (2 * (s : Int) + 1) (2 * (t : Int))
        + wrapFetch m.wrap_mode (levelSize (2 ^ m.kx) i) (levelSize (2 ^ m.ky) i)
            (m.levelArr i) (2 * (s : Int)) (2 * (t : Int) + 1)
        + wrapFetch m.wrap_mode (levelSize (2 ^ m.kx) i) (levelSize (2 ^ m.ky) i)
            (m.levelArr i) (2 * (s : Int) + 1) (2 * (t : Int) + 1)) * 0.25

/-- `MIPMap::levels`: `1 + log2(max(w, h))`, exact for power-of-two sizes. -/
def MIPMap.levels (m : MIPMap) : Nat := 1 + max m.kx m.ky

/-- `MIPMap::texel` at a pyramid level. -/
def MIPMap.texel (m : MIPMap) (level : Nat) (s t : Int) : ℝ :=
  wrapFetch m.wrap_mode (levelSize (2 ^ m.kx) level) (levelSize (2 ^ m.ky) level)
    (m.levelArr level) s t

/-- Modelled from the spec: the crate-root helper `lerp` is not among the
provided sources; `lerp(t, a, b) = (1 - t) a + t b`. -/
def lerp (t a c : ℝ) : ℝ := (1 - t) * a + t * c

/-- Modelled from the spec: the crate-root generic `clamp` helper. -/
def clampNat (x lo hi : Nat) : Nat :=
  if x < lo then lo else if hi < x then hi else x

/-- `MIPMap::triangle`: bilinear interpolation of the four texels around the
continuous coordinate at a (clamped) pyramid level. -/
noncomputable def MIPMap.triangle (m : MIPMap) (level : Nat) (st : ℝ × ℝ) : ℝ :=
  let level := clampNat level 0 (m.levels - 1)
  let s := st.1 * (levelSize (2 ^ m.kx) level : ℝ) - 0.5
  let t := st.2 * (levelSize (2 ^ m.ky) level : ℝ) - 0.5
  let s0 := ⌊s⌋
  let t0 := ⌊t⌋
  let ds := s - (s0 : ℝ)
  let dt := t - (t0 : ℝ)
  m.texel level s0 t0 * (1 - ds) * (1 - dt)
    + m.texel level s0 (t0 + 1) * (1 - ds) * dt
    + m.texel level (s0 + 1) t0 * ds * (1 - dt)
    + m.texel level (s0 + 1) (t0 + 1) * ds * dt

/-- `MIPMap::lookup` with an explicit filter `width`: trilinear between the
two pyramid levels around `levels - 1 + log2(max(width, 1e-8))`. -/
noncomputable def MIPMap.lookup (m : MIPMap) (st : ℝ × ℝ) (width : ℝ) : ℝ :=
  let level := (m.levels : ℝ) - 1 + Real.logb 2 (max width 1e-8)
  if level < 0 then m.triangle 0 st
  else if (m.levels : ℝ) - 1 ≤ level then m.texel (m.levels - 1) 0 0
  else
    let i_level := ⌊level⌋
    let delta := level - (i_level : ℝ)
    lerp delta (m.triangle i_level.toNat st) (m.triangle (i_level.toNat + 1) st)

theorem wrapFetch_const (mode : WrapMode) (us vs : Nat) (arr : Nat → Nat → ℝ) (v : ℝ)
    (hmode : mode = .repeat ∨ mode = .clamp) (h : ∀ s t, arr s t = v) (s t : Int) :
    wrapFetch mode us vs arr s t = v := by
  rcases hmode with hm | hm <;> subst hm <;> simp [wrapFetch, h]

theorem MIPMap.levelArr_const (m : MIPMap) (v : ℝ)
    (hmode : m.wrap_mode = .repeat ∨ m.wrap_mode = .clamp)
    (himg : ∀ s t, m.img s t = v) :
    ∀ i s t, m.levelArr i s t = v := by
  intro i
  induction i with
  | zero => exact himg
  | succ i ih =>
    intro s t
    rw [MIPMap.levelArr]
    simp only [wrapFetch_const _ _ _ _ v hmode ih]
    ring

theorem MIPMap.texel_const (m : MIPMap) (v : ℝ)
    (hmode : m.wrap_mode = .repeat ∨ m.wrap_mode = .clamp)
    (himg : ∀ s t, m.img s t = v) (level : Nat) (s t : Int) :
    m.texel level s t = v := by
  rw [MIPMap.texel]
  exact wrapFetch_const _ _ _ _ v hmode (m.levelArr_const v hmode himg level) s t

/-- Claim C7, amended to the Repeat and Clamp wrap modes: a MIPMap built from
a constant power-of-two image of value `v` has every pyramid level constantly
`v`, `triangle` returns `v` at every level and coordinate (the four bilinear
weights sum to 1), and `lookup` returns `v` for every coordinate and width
(the two level-blend weights sum to 1). -/
theorem MIPMap.constant_lookup (m : MIPMap) (v : ℝ)
    (hmode : m.wrap_mode = .repeat ∨ m.wrap_mode = .clamp)
    (himg : ∀ s t, m.img s t = v) :
    (∀ i s t, m.levelArr i s t = v)
      ∧ (∀ level st, m.triangle level st = v)
      ∧ (∀ st width, m.lookup st width = v) := by
  have htri : ∀ level st, m.triangle level st = v := by
    intro level st
    rw [MIPMap.triangle]
    simp only [MIPMap.texel_const m v hmode himg]
    ring
  refine ⟨m.levelArr_const v hmode himg, htri, ?_⟩
  intro st width
  rw [MIPMap.lookup]
  split
  · exact htri 0 st
  · split
    · exact m.texel_const v hmode himg _ 0 0
    · simp only [htri, lerp]
      ring

/-- Witness for the amended C7 at a concrete input: a constant `2 × 2` image
of value 5 with Repeat wrapping looks up to 5 at `st = (1/3, 1/3)`,
`width = 1/2`. -/
theorem MIPMap.constant_lookup_witness :
    MIPMap.lookup ⟨.repeat, 1, 1, fun _ _ => 5⟩ (1/3, 1/3) (1/2) = 5 :=
  (MIPMap.constant_lookup ⟨.repeat, 1, 1, fun _ _ => 5⟩ 5 (Or.inl rfl)
    (fun _ _ => rfl)).2.2 (1/3, 1/3) (1/2)

/-- Counterexample to claim C7: a constant 2 × 2 image of value 1 with the
Black wrap mode. At `st = (0, 0)` the bilinear footprint reaches texels at
index -1, which Black maps to the zero sentinel, and a `width = 1/2` lookup
returns `1/4`, not the constant value 1. -/
theorem MIPMap.black_border_counterexample :
    MIPMap.lookup ⟨.black, 1, 1, fun _ _ => 1⟩ (0, 0) (1/2) = 1/4
      ∧ (1/4 : ℝ) ≠ 1 := by
  refine ⟨?_, by norm_num⟩
  have hlog : Real.logb 2 (max ((1:ℝ)/2) 1e-8) = -1 := by
    rw [show max ((1:ℝ)/2) 1e-8 = (2:ℝ)⁻¹ from by norm_num, Real.logb_inv,
      Real.logb_self_eq_one (by norm_num)]
  have htex : ∀ s t : Int, (MIPMap.mk .black 1 1 fun _ _ => 1).texel 0 s t
      = if s < 0 ∨ (2:Int) ≤ s ∨ t < 0 ∨ (2:Int) ≤ t then 0 else 1 := by
    intro s t
    simp only [MIPMap.texel, MIPMap.levelArr, wrapFetch]
    norm_num [levelSize]
  have htri0 : (MIPMap.mk .black 1 1 fun _ _ => 1).triangle 0 (0, 0) = 1/4 := by
    rw [MIPMap.triangle]
    rw [show clampNat 0 0 ((MIPMap.mk .black 1 1 fun _ _ => 1).levels - 1) = 0 from rfl]
    rw [show levelSize (2 ^ (MIPMap.mk .black 1 1 fun _ _ => 1).kx) 0 = 2 from rfl]
    have hs : ((0:ℝ), (0:ℝ)).1 * ((2:ℕ) : ℝ) - 0.5 = -(1/2) := by norm_num
    rw [hs]
    have hf : ⌊(-(1/2) : ℝ)⌋ = -1 := by
      rw [Int.floor_eq_iff]
      constructor <;> norm_num
    rw [hf]
    simp only [htex]
    norm_num
  rw [MIPMap.lookup, hlog]
  rw [show (MIPMap.mk .black 1 1 fun _ _ => 1).levels = 2 from rfl]
  have hlv : ((2:ℕ) : ℝ) - 1 + -1 = 0 := by norm_num
  rw [hlv]
  rw [if_neg (lt_irrefl (0:ℝ))]
  rw [if_neg (by norm_num : ¬ ((2:ℕ) : ℝ) - 1 ≤ (0:ℝ))]
  rw [Int.floor_zero]
  simp only [lerp, Int.toNat_zero, Int.cast_zero]
  rw [htri0]
  norm_num

end Rustracer






